import Mathlib

/-!
Verification of the early time-series classification library (`ml_edm`):
a shallow embedding of `BaseTimeClassifier.fit` / `_grouped_by_length` / `predict`
(`src/ml_edm/classification/_base.py`) and of `EarlyClassifier.score` / `get_post`
and the forwarded property setters (`src/ml_edm/early_classifier.py`), together
with theorems settling the specification claims about them.

Machine reals (numpy float64) are embedded as exact rationals `ℚ`; a possibly-NaN
probability entry is embedded as `Option ℚ` with `none` standing for NaN.
Python `int()` applied to a float quotient is embedded as exact truncation toward
zero (`intTrunc`).  The source attribute `sampling_ratio` is spelled
`sampling_frac` here, and `np.unique` / `np.sort` are realized by
`insertionSort`/`dedup` (extensionally the sorted-unique, resp. sorted, list).
-/

/-- Truncation of a rational toward zero: the embedding of Python `int(...)`
applied to the exact value of a float quotient. -/
def intTrunc (q : ℚ) : ℤ := if q < 0 then -⌊-q⌋ else ⌊q⌋

/-- Embedding of `np.unique` on an integer array: the sorted list of distinct
elements. -/
def npUniqueInt (l : List ℤ) : List ℤ := List.insertionSort (· ≤ ·) l.dedup

/-- Embedding of `np.unique` on label arrays (natural-number class labels). -/
def npUniqueNat (l : List ℕ) : List ℕ := List.insertionSort (· ≤ ·) l.dedup

/-- Embedding of `np.sort` on an integer array. -/
def npSortInt (l : List ℤ) : List ℤ := List.insertionSort (· ≤ ·) l

/-- Empirical class frequencies, from `_base.py` line 40:
`[np.sum(y == c) / len(y) for c in self.classes_]`. -/
def classPriorOf (y : List ℕ) : List ℚ :=
  (npUniqueNat y).map (fun c => (y.count c : ℚ) / (y.length : ℚ))

/-- Observable state of a `BaseTimeClassifier` instance, i.e. the attributes
read and written by `fit` (`_base.py` lines 9–95).  `fittedCount` counts the
per-checkpoint classifiers trained by `_fit` (0 before any successful fit). -/
structure ClfState where
  timestamps : Option (List ℤ)
  sampling_frac : Option ℚ
  min_length : Option ℤ
  max_length : Option ℕ
  classes_ : Option (List ℕ)
  class_prior : Option (List ℚ)
  nb_classifiers : Option ℤ
  fittedCount : ℕ
deriving DecidableEq

/-- A fresh instance as produced by `BaseTimeClassifier.__init__` with a given
constructor configuration (lines 9–23): only the three constructor arguments
are set, everything else is unset. -/
def initClf (ts : Option (List ℤ)) (frac : Option ℚ) (minL : Option ℤ) : ClfState :=
  ⟨ts, frac, minL, none, none, none, none, 0⟩

/-- The classifier count derived from a sampling ratio (`_base.py` line 74):
`np.minimum(int(1 / ratio), max_length - min_length + 1)`. -/
def countFromFrac (r : ℚ) (nCols : ℕ) (minL : ℤ) : ℤ :=
  min (intTrunc (1 / r)) ((nCols : ℤ) - minL + 1)

/-- The raw equally-spaced checkpoint list derived from a count
(`_base.py` lines 82–85): `int((max_length - min_length) * i / nb) + min_length`
for `i = 1 .. nb` (empty when `nb ≤ 0`). -/
def derivedRaw (nb : ℤ) (nCols : ℕ) (minL : ℤ) : List ℤ :=
  (List.range nb.toNat).map (fun k =>
    intTrunc ((((nCols : ℤ) - minL : ℤ) : ℚ) * (((k : ℕ) + 1 : ℕ) : ℚ) / ((nb : ℤ) : ℚ)) + minL)

/-- Checkpoint derivation from `self.nb_classifiers` (`_base.py` lines 81–88):
build the raw list, deduplicate it (`set(...)`), store it, and update
`nb_classifiers` to the deduplicated size. -/
def deriveCkpts (s : ClfState) (nCols : ℕ) (minL : ℤ) : ClfState :=
  let ts := npUniqueInt (derivedRaw (s.nb_classifiers.getD 0) nCols minL)
  { s with timestamps := some ts, nb_classifiers := some (ts.length : ℤ) }

/-- Tail of `fit` (`_base.py` lines 90–93): sort the stored timestamps
ascending, then `_fit` trains one classifier per checkpoint. -/
def finishFit (s : ClfState) : ClfState :=
  match s.timestamps with
  | some ts => { s with timestamps := some (npSortInt ts), fittedCount := (npSortInt ts).length }
  | none => s

/-- Error message of `_base.py` line 49. -/
def emptyTsMsg : String := "List argument timestamps is empty."

/-- Error message of `_base.py` lines 52 and 54. -/
def negTsMsg : String := "Argument timestamps should be a list or array of positive int."

/-- Error message of `_base.py` lines 68–72. -/
def fracMsg : String := "Argument sampling_ratio should be a strictly positive float between 0 and 1."

/-- Embedding of `BaseTimeClassifier.fit` (`_base.py` lines 25–95), restricted
to its effect on the observable state.  `nCols` is `X.shape[1]` and `y` the
label list (`check_X_y` has already validated their shapes).  A raise is
embedded as `.error (message, state-at-raise-time)`: Python exceptions leave
the partially mutated object behind, so the state at the raise is observable.

Statement-by-statement correspondence:
line 33 sets `max_length`; lines 34–36 default `min_length` to 1;
lines 39–40 set `classes_` and `class_prior`;
lines 43–63 validate explicit `timestamps` (empty / negative entries raise,
duplicates are removed, a simultaneously given ratio is discarded);
lines 65–74 validate the sampling ratio and set `nb_classifiers`
(in the embedding the ratio is already a number, so only the range check of
lines 70–72 can fail; the type checks of lines 46–52 and 66–69 concern
representations that do not exist in the embedding);
lines 76–79 default `nb_classifiers` to 20;
lines 81–88 derive checkpoints from the count; lines 90–93 sort and `_fit`. -/
def fitStep (s : ClfState) (nCols : ℕ) (y : List ℕ) : Except (String × ClfState) ClfState :=
  let s1 : ClfState := { s with max_length := some nCols }
  let s2 : ClfState := if s1.min_length = none then { s1 with min_length := some 1 } else s1
  let s3 : ClfState :=
    { s2 with classes_ := some (npUniqueNat y), class_prior := some (classPriorOf y) }
  match s3.timestamps with
  | some ts =>
      if ts = [] then .error (emptyTsMsg, s3)
      else if ts.any (fun t => t < 0) then .error (negTsMsg, s3)
      else
        let s4 : ClfState :=
          if (npUniqueInt ts).length ≠ ts.length then { s3 with timestamps := some (npUniqueInt ts) }
          else s3
        let s5 : ClfState := if s4.sampling_frac ≠ none then { s4 with sampling_frac := none } else s4
        .ok (finishFit s5)
  | none =>
      match s3.sampling_frac with
      | some r =>
          if r ≤ 0 ∨ 1 < r then .error (fracMsg, s3)
          else
            let minL := s3.min_length.getD 1
            .ok (finishFit (deriveCkpts
              { s3 with nb_classifiers := some (countFromFrac r nCols minL) } nCols minL))
      | none =>
          let minL := s3.min_length.getD 1
          .ok (finishFit (deriveCkpts { s3 with nb_classifiers := some 20 } nCols minL))

/-- The state after the unconditional statements of `fit` that precede the
`timestamps` / `sampling_ratio` validation (`_base.py` lines 33–40). -/
def preValidated (s : ClfState) (nCols : ℕ) (y : List ℕ) : ClfState :=
  { s with max_length := some nCols,
           min_length := some (s.min_length.getD 1),
           classes_ := some (npUniqueNat y),
           class_prior := some (classPriorOf y) }

/-- Embedding of numpy `argmax` on a plain (NaN-free) float vector: the index
of the first strict maximum. -/
def npArgmaxQAux (i bi : ℕ) (bv : ℚ) : List ℚ → ℕ
  | [] => bi
  | x :: xs => if bv < x then npArgmaxQAux (i + 1) i x xs else npArgmaxQAux (i + 1) bi bv xs

/-- numpy `argmax` over rationals (first maximal index; 0 on the empty list). -/
def npArgmaxQ : List ℚ → ℕ
  | [] => 0
  | x :: xs => npArgmaxQAux 1 0 x xs

/-- Embedding of one iteration of the loop of `_grouped_by_length`
(`_base.py` lines 135–149) for a single series: returns the dictionary key the
series is grouped under and the (possibly truncated) series stored there.
`min(filter(lambda x: x <= length, timestamps), key=lambda x: length - x)`
maximizes `x`, i.e. picks the largest checkpoint not exceeding the length
(embedded as `foldl max 0`; the filtered list is nonempty whenever the
timestamps are sorted nonempty, since the guard requires `timestamps[0] < length`).
The source then truncates only under Python truthiness `if length:` — i.e.
only when that checkpoint is nonzero. -/
def processSerie (tss : List ℕ) (serie : List ℚ) : ℕ × List ℚ :=
  let length := serie.length
  if length ∉ tss ∧ tss.headD 0 < length then
    let newLen := (tss.filter (fun c => c ≤ length)).foldl max 0
    if newLen ≠ 0 then (newLen, serie.take newLen) else (newLen, serie)
  else (length, serie)

/-- Whether `_grouped_by_length` sets its `truncated` flag for this series
(`_base.py` lines 142–144). -/
def serieTruncated (tss : List ℕ) (serie : List ℚ) : Bool :=
  decide (serie.length ∉ tss ∧ tss.headD 0 < serie.length) &&
    decide ((tss.filter (fun c => c ≤ serie.length)).foldl max 0 ≠ 0)

/-- Warning message of `_base.py` line 152. -/
def truncMsg : String :=
  "Some time series were truncated during prediction since no classifier was fitted for their lengths."

/-- The warnings emitted by one `_grouped_by_length` call on a batch
(`_base.py` lines 133, 144, 151–152): a single flag is set if any series was
truncated and one warning is emitted at the end when it is set. -/
def truncWarnings (tss : List ℕ) (x : List (List ℚ)) : List String :=
  if x.any (fun serie => serieTruncated tss serie) then [truncMsg] else []

/-- Modelled from the spec: the concrete ensemble subclass `_predict_proba`
(`ClassifiersCollection`, whose module is not under `src/`) dispatches each
group of `_grouped_by_length` to the classifier fitted for its key length.
Per §4.2 of the spec and the `predict` docstring (`_base.py` lines 118–120),
a group whose key is shorter than the first checkpoint is answered with the
class prior; `clfOut k` stands for the classifier fitted for checkpoint `k`. -/
def dispatchGroup (tss : List ℕ) (prior : List ℚ) (clfOut : ℕ → List ℚ → List ℚ)
    (key : ℕ) (serie : List ℚ) : List ℚ :=
  if key < tss.headD 0 then prior else clfOut key serie

/-- `predict_proba` for a single series (`_base.py` lines 97–104): group by
length, then dispatch to the matching classifier (or the prior fallback). -/
def predictProbaSerie (tss : List ℕ) (prior : List ℚ) (clfOut : ℕ → List ℚ → List ℚ)
    (serie : List ℚ) : List ℚ :=
  dispatchGroup tss prior clfOut (processSerie tss serie).1 (processSerie tss serie).2

/-- `predict` for a single series (`_base.py` lines 115–129): argmax of
`predict_proba`. -/
def predictSerie (tss : List ℕ) (prior : List ℚ) (clfOut : ℕ → List ℚ → List ℚ)
    (serie : List ℚ) : ℕ :=
  npArgmaxQ (predictProbaSerie tss prior clfOut serie)

/-- Whether a possibly-NaN probability entry beats the current running maximum
under numpy comparison semantics: NaN (`none`) acts as a maximal element, and a
later NaN never displaces an earlier one (numpy `argmax` returns the index of
the first NaN when one is present). -/
def nanGT : Option ℚ → Option ℚ → Bool
  | none, none => false
  | none, some _ => true
  | some _, none => false
  | some a, some b => decide (b < a)

/-- Embedding of numpy `argmax` on a possibly-NaN float vector. -/
def npArgmaxAux (i bi : ℕ) (bv : Option ℚ) : List (Option ℚ) → ℕ
  | [] => bi
  | x :: xs => if nanGT x bv then npArgmaxAux (i + 1) i x xs else npArgmaxAux (i + 1) bi bv xs

/-- numpy `argmax` over possibly-NaN entries (first maximal index, NaN maximal;
0 on the empty list). -/
def npArgmax : List (Option ℚ) → ℕ
  | [] => 0
  | x :: xs => npArgmaxAux 1 0 x xs

/-- Embedding of numpy `argmin` on a (NaN-free) float vector: running pair of
best index and best value, replaced only on strict decrease. -/
def npArgminAux (i bi : ℕ) (bv : ℚ) : List ℚ → ℕ × ℚ
  | [] => (bi, bv)
  | x :: xs => if x < bv then npArgminAux (i + 1) i x xs else npArgminAux (i + 1) bi bv xs

/-- numpy `argmin` over rationals (first minimal index; 0 on the empty list). -/
def npArgmin : List ℚ → ℕ
  | [] => 0
  | x :: xs => (npArgminAux 1 0 x xs).1

/-- The fitted state of an `EarlyClassifier` as read by `score` and `get_post`
(`early_classifier.py` lines 275–410), abstracted over its external
collaborators.  `checkpoints` is `models_input_lengths`; `cost t p c` is
`cost_matrices[t][p][c]` (predicted class `p`, true class `c`, the orientation
used on lines 299, 316, 334, 378, 382); `probas t i` is the probability vector
the chronological classifiers emit for series `i` at checkpoint index `t`
(`predict_proba(X[:, :l])`; by §8 of the spec the entry of
`predict_past_proba` at that checkpoint is the same vector, so both score
branches read this one function); `classPrior` is
`chronological_classifiers.class_prior`.

Modelled from the spec: the trigger model's code (`trigger_models.py`,
`trigger_models_full.py`) is not under `src/`.  Per §5 of the spec a fitted
trigger model is read-only during `predict`, so its outputs are pure
functions: `trigger t i` is the boolean it returns for series `i` at
checkpoint index `t` (`require_classifiers` contract), while `trigPredClasses`
and `trigPredTimes` are the class (possibly NaN) and stopping time returned by
an end-to-end trigger model (`require_classifiers = False` contract, §4.3). -/
structure EarlyModel where
  checkpoints : List ℕ
  cost : ℕ → ℕ → ℕ → ℚ
  probas : ℕ → ℕ → List (Option ℚ)
  trigger : ℕ → ℕ → Bool
  classPrior : List ℚ
  requireClassifiers : Bool
  trigPredClasses : ℕ → Option ℕ
  trigPredTimes : ℕ → ℕ

/-- The first checkpoint index strictly below `t0` at which the trigger model
fires for series `i` (the per-series content of `past_trigger` after the loop
of `score` has processed checkpoints `0 .. t0-1`). -/
def firstTrig (m : EarlyModel) (i : ℕ) : ℕ → Option ℕ
  | 0 => none
  | t + 1 =>
      match firstTrig m i t with
      | some ft => some ft
      | none => if m.trigger t i then some t else none

/-- The checkpoint index at which `score` freezes series `i`: the first index
where the trigger fires, else the last checkpoint (forced termination). -/
def tStarIdx (m : EarlyModel) (i : ℕ) : ℕ :=
  (firstTrig m i m.checkpoints.length).getD (m.checkpoints.length - 1)

/-- The per-series arrays of `score` (`early_classifier.py` lines 277–282):
`past_trigger`, `all_preds`, `all_t_star`, `all_f_star`, all initialised to
`False` resp. `-1`. -/
structure ScoreSt where
  pastTrigger : ℕ → Bool
  allPreds : ℕ → ℤ
  allTStar : ℕ → ℤ
  allFStar : ℕ → ℚ

/-- Initial arrays of `score` (lines 277–282). -/
def initScoreSt : ScoreSt := ⟨fun _ => false, fun _ => -1, fun _ => -1, fun _ => -1⟩

/-- The checkpoint loop of `score` for classifier-based trigger models
(`early_classifier.py` lines 289–336, branches of lines 302–307): `t` is the
running checkpoint index and the list argument the remaining checkpoint
lengths.  At each checkpoint: `classes` is the argmax of the probability
vectors at the current length (both the `require_past_probas` branch, line
304, and the `predict` branch, line 307, reduce to this), `triggers` the
trigger model's output, and the mask zeroes out already-triggered series
(lines 309–312); newly triggered series freeze prediction, stopping length
and realized cost (lines 314–317); `past_trigger` absorbs the new triggers
(line 320); the loop breaks once every series has triggered (lines 323–324);
at the last checkpoint the remaining series are forcibly terminated (lines
326–336).  `all_preds` only ever holds `-1` or argmax outputs, so the
`np.isnan(all_preds)` test of line 331 is identically false and has no
embedded effect. -/
def scoreStep (m : EarlyModel) (y : List ℕ) (t l : ℕ) (st : ScoreSt) : ScoreSt :=
  let classes : ℕ → ℤ := fun i => (npArgmax (m.probas t i) : ℤ)
  let mask : ℕ → Bool := fun i => m.trigger t i && !(st.pastTrigger i)
  ⟨fun i => st.pastTrigger i || m.trigger t i,
  fun i => if mask i then classes i else st.allPreds i,
  fun i => if mask i then (l : ℤ) else st.allTStar i,
  fun i => if mask i then m.cost t (classes i).toNat (y.getD i 0) else st.allFStar i⟩

/-- The forced-termination block at the last checkpoint (`early_classifier.py`
lines 326–336), applied to the arrays `st1` updated at the current (= last)
checkpoint `t`: not-yet-set stopping lengths become the last length `l`,
not-yet-set predictions become the current argmax classes, and not-yet-set
costs are read from `cost_matrices[-1]` at the (updated) predictions. -/
def scoreForce (m : EarlyModel) (y : List ℕ) (t l : ℕ) (st1 : ScoreSt) : ScoreSt :=
  let classes : ℕ → ℤ := fun i => (npArgmax (m.probas t i) : ℤ)
  let preds2 : ℕ → ℤ := fun i => if st1.allPreds i < 0 then classes i else st1.allPreds i
  ⟨st1.pastTrigger,
  preds2,
  fun i => if st1.allTStar i < 0 then (l : ℤ) else st1.allTStar i,
  fun i => if st1.allFStar i < 0 then
      m.cost (m.checkpoints.length - 1) (preds2 i).toNat (y.getD i 0)
    else st1.allFStar i⟩

def scoreGo (m : EarlyModel) (y : List ℕ) (n : ℕ) : ℕ → List ℕ → ScoreSt → ScoreSt
  | _, [], st => st
  | t, l :: rest, st =>
      let st1 : ScoreSt := scoreStep m y t l st
      if (List.range n).all st1.pastTrigger then st1
      else if l = m.checkpoints.getLastD 0 then scoreForce m y t l st1
      else scoreGo m y n (t + 1) rest st1

/-- The final per-series arrays of `score` for a classifier-based trigger
model: run the loop over all checkpoints from the initial arrays. -/
def scoreRunClf (m : EarlyModel) (y : List ℕ) : ScoreSt :=
  scoreGo m y y.length 0 m.checkpoints initScoreSt

/-- Embedding of `np.searchsorted(a, v, side=left)` on a sorted list: the
first index whose element is `≥ v`. -/
def searchsortedLeft (a : List ℕ) (v : ℕ) : ℕ := a.findIdx (fun c => v ≤ c)

/-- The majority class used as fallback prediction:
`np.unique(y)[np.argmax(class_prior)]` (lines 293, 332, 377, 393). -/
def majorityClass (y : List ℕ) (prior : List ℚ) : ℕ :=
  (npUniqueNat y).getD (npArgmaxQ prior) 0

/-- The `score` branch for end-to-end trigger models (`require_classifiers`
false, `early_classifier.py` lines 291–301): the trigger model itself returns
classes (NaN replaced by the majority class via `np.nan_to_num`) and raw
stopping times, which are snapped onto checkpoints by `searchsorted`; the
realized cost is read from the cost matrix at the snapped checkpoint's index;
the loop then breaks.  `past_trigger` is left at its initial value. -/
def scoreRunNoClf (m : EarlyModel) (y : List ℕ) : ScoreSt :=
  let defPred : ℕ := majorityClass y m.classPrior
  let preds : ℕ → ℕ := fun i => (m.trigPredClasses i).getD defPred
  let tStarVal : ℕ → ℕ := fun i =>
    m.checkpoints.getD (searchsortedLeft m.checkpoints (m.trigPredTimes i)) 0
  ⟨fun _ => false,
  fun i => (preds i : ℤ),
  fun i => (tStarVal i : ℤ),
  fun i => m.cost (m.checkpoints.findIdx (fun c => c = tStarVal i)) (preds i) (y.getD i 0)⟩

/-- The final per-series arrays of `score`, dispatching on
`require_classifiers` as lines 291 and 302–307 do. -/
def scoreResult (m : EarlyModel) (y : List ℕ) : ScoreSt :=
  if m.requireClassifiers then scoreRunClf m y else scoreRunNoClf m y

/-- The average realized cost reported by `score` (`np.mean(all_f_star)`,
line 340). -/
def scoreAvgCost (m : EarlyModel) (y : List ℕ) : ℚ :=
  ((List.range y.length).map (fun i => (scoreResult m y).allFStar i)).sum / (y.length : ℚ)

/-- The accuracy reported by `score` (`(all_preds == y).mean()`, line 338). -/
def scoreAccuracy (m : EarlyModel) (y : List ℕ) : ℚ :=
  (((List.range y.length).filter
      (fun i => (scoreResult m y).allPreds i = (y.getD i 0 : ℤ))).length : ℚ) / (y.length : ℚ)

/-- The earliness reported by `score` (`np.mean(all_t_star) / X.shape[1]`,
line 339); `maxT` is `X.shape[1]`. -/
def scoreEarliness (m : EarlyModel) (y : List ℕ) (maxT : ℕ) : ℚ :=
  (((List.range y.length).map (fun i => ((scoreResult m y).allTStar i : ℚ))).sum / (y.length : ℚ))
    / (maxT : ℚ)

/-- The triple returned by `score(X, y)` (`return (avg_score, acc, earl)`,
line 356). -/
def scoreMetrics (m : EarlyModel) (y : List ℕ) (maxT : ℕ) : ℚ × ℚ × ℚ :=
  (scoreAvgCost m y, scoreAccuracy m y, scoreEarliness m y maxT)

/-- `score` threaded through the fitted model's state: the body of `score`
(`early_classifier.py` lines 275–356) reads `self` (trigger model outputs,
classifier probabilities, cost matrices, checkpoints, class prior) but
contains no assignment to any attribute of `self`, so the embedding returns
the carried model unchanged alongside the metrics. -/
def scoreCall (m : EarlyModel) (y : List ℕ) (maxT : ℕ) : (ℚ × ℚ × ℚ) × EarlyModel :=
  (scoreMetrics m y maxT, m)

/-- The cost `get_post` assigns to predicting series `i` at checkpoint index
`t` (`early_classifier.py` lines 367–384, `use_probas=False`):
`cost_matrices[t][argmax(probas)][y[i]]`.  The argmax output is an integer,
never NaN, so the `np.isnan(p)` guards of lines 379 and 383 are identically
false and neither the `default_pred` substitution nor the `np.inf` marker is
ever produced. -/
def fPost (m : EarlyModel) (y : List ℕ) (t i : ℕ) : ℚ :=
  m.cost t (npArgmax (m.probas t i)) (y.getD i 0)

/-- The column of `all_f` for series `i` (lines 364–384). -/
def fPostCol (m : EarlyModel) (y : List ℕ) (i : ℕ) : List ℚ :=
  (List.range m.checkpoints.length).map (fun t => fPost m y t i)

/-- `t_post_idx` for series `i`: `all_f.argmin(axis=0)` (line 386). -/
def tPostIdx (m : EarlyModel) (y : List ℕ) (i : ℕ) : ℕ :=
  npArgmin (fPostCol m y i)

/-- `all_f_post` for series `i`: `f[t_post_idx[i]]` (line 390). -/
def fPostVal (m : EarlyModel) (y : List ℕ) (i : ℕ) : ℚ :=
  (fPostCol m y i).getD (tPostIdx m y i) 0

/-- The mean per-series oracle cost reported by `get_post`
(`np.mean(all_f_post)`, line 402). -/
def getPostAvgCost (m : EarlyModel) (y : List ℕ) : ℚ :=
  ((List.range y.length).map (fun i => fPostVal m y i)).sum / (y.length : ℚ)

/-- The four public attributes of `EarlyClassifier` whose property setters
forward to themselves (`early_classifier.py` lines 83–110): `nb_classifiers`,
`sampling_ratio`, `base_classifier`, `min_length`. -/
inductive FwdAttr
  | nbClassifiers
  | samplingFrac
  | baseClassifier
  | minLength

/-- Fuel-indexed evaluation of assigning a value to one of the forwarded
attributes: each setter's body is `self.<attr> = value` for the same
attribute (lines 83–85, 91–93, 99–101, 108–110), which dispatches straight
back into the same setter, consuming one step of fuel and making no progress;
`none` means the call did not complete within the given number of steps.
(The extra statement of the `base_classifier` setter on line 102 sits after
the self-assignment and is never reached.) -/
def setAttrSteps (a : FwdAttr) (v : ℤ) : ℕ → Option Unit
  | 0 => none
  | fuel + 1 => setAttrSteps a v fuel

/-- Loop invariant of `score`: after the checkpoints `0 .. t0 - 1` have been
processed, `past_trigger` records whether a trigger has fired yet, and the
three arrays hold either the frozen first-trigger values or the `-1`
sentinels. -/
def stInv (m : EarlyModel) (y : List ℕ) (n t0 : ℕ) (st : ScoreSt) : Prop :=
  ∀ i, i < n →
    ((st.pastTrigger i = true) ↔ (firstTrig m i t0).isSome) ∧
    (∀ ft, firstTrig m i t0 = some ft →
      st.allPreds i = (npArgmax (m.probas ft i) : ℤ) ∧
      st.allTStar i = (m.checkpoints.getD ft 0 : ℤ) ∧
      st.allFStar i = m.cost ft (npArgmax (m.probas ft i)) (y.getD i 0)) ∧
    (firstTrig m i t0 = none →
      st.allPreds i = -1 ∧ st.allTStar i = -1 ∧ st.allFStar i = -1)

/-- Per-series characterization of the final arrays of the `score` loop:
every series carries the argmax prediction, checkpoint length and realized
cost of its stopping index `tStarIdx`. -/
def finalSpec (m : EarlyModel) (y : List ℕ) (n : ℕ) (st : ScoreSt) : Prop :=
  ∀ i, i < n →
    st.allPreds i = (npArgmax (m.probas (tStarIdx m i) i) : ℤ) ∧
    st.allTStar i = (m.checkpoints.getD (tStarIdx m i) 0 : ℤ) ∧
    st.allFStar i = m.cost (tStarIdx m i) (npArgmax (m.probas (tStarIdx m i) i)) (y.getD i 0)

/-- A fitted model with an end-to-end trigger model (`require_classifiers`
false, e.g. the ECTS/EDSC strategies of §4.3): the trigger model predicts
class 1 and stops at the only checkpoint, while the chronological classifiers
put all probability mass on class 0. -/
def c1xModel : EarlyModel where
  checkpoints := [5]
  cost := fun _ p c => if p = c then 0 else 1
  probas := fun _ _ => [some 1, some 0]
  trigger := fun _ _ => false
  classPrior := [1]
  requireClassifiers := false
  trigPredClasses := fun _ => some 1
  trigPredTimes := fun _ => 5

/-- A fitted classifier-based model used to instantiate the amended claim. -/
def c1wModel : EarlyModel where
  checkpoints := [2, 5]
  cost := fun _ _ _ => 1
  probas := fun _ _ => [some 1]
  trigger := fun _ _ => true
  classPrior := [1]
  requireClassifiers := true
  trigPredClasses := fun _ => none
  trigPredTimes := fun _ => 0

/-- A fitted classifier-based model on which every probability output is NaN
at every checkpoint and the trigger never fires: three series with labels
`[0, 1, 1]`, training prior `(1/4, 3/4)` (majority class 1), one checkpoint. -/
def c7Model : EarlyModel where
  checkpoints := [5]
  cost := fun _ _ _ => 1
  probas := fun _ _ => [none, none]
  trigger := fun _ _ => false
  classPrior := [1/4, 3/4]
  requireClassifiers := true
  trigPredClasses := fun _ => none
  trigPredTimes := fun _ => 0

/-- C2 as stated by the spec, formalized: every checkpoint sequence stored by
a successful `fit` is strictly increasing (hence duplicate-free) and lies
within `[min_length, max_length]`. -/
def fitBoundsClaim : Prop :=
  ∀ (s : ClfState) (nCols : ℕ) (y : List ℕ) (s' : ClfState) (ts : List ℤ),
    fitStep s nCols y = .ok s' → s'.timestamps = some ts →
    ts.Sorted (· < ·) ∧ ts ≠ [] ∧
    ∀ t ∈ ts, (s'.min_length.getD 1) ≤ t ∧ t ≤ ((s'.max_length.getD 0 : ℕ) : ℤ)

/-- The stored state after fitting with the out-of-range explicit checkpoint
list `[200]` on series of length 100. -/
def c2xOut : ClfState :=
  { timestamps := some [200], sampling_frac := none, min_length := some 1,
    max_length := some 100, classes_ := some [0, 1],
    class_prior := some (classPriorOf [0, 1]), nb_classifiers := none, fittedCount := 1 }

/-- C6 as stated by the spec, formalized at one series: a series whose length
matches no checkpoint but exceeds the smallest checkpoint is stored truncated
to the largest checkpoint not exceeding its length. -/
def truncClaimAt (tss : List ℕ) (serie : List ℚ) : Prop :=
  serie.length ∉ tss → tss.headD 0 < serie.length →
    (processSerie tss serie).2 =
      serie.take ((tss.filter (fun c => c ≤ serie.length)).foldl max 0)

/-- The fresh classifier state used for the C8 counterexample: no timestamps,
sampling ratio 2 (outside `(0, 1]`), no `min_length`. -/
def c8xIn : ClfState := initClf none (some 2) none

/-- The classifier count the claim's wording prescribes:
`min(round(1/ratio), max_length - min_length + 1)`. -/
def c4ClaimCount (r : ℚ) (nCols : ℕ) (minL : ℤ) : ℤ :=
  min (round (1 / r)) ((nCols : ℤ) - minL + 1)

/-- Abbreviation for the concrete configuration of the C4 witness. -/
def c4wIn : ClfState := initClf none (some (1/4)) (some 1)

/-- The state stored by the default-configuration `fit`
(no timestamps, no ratio) on one series of length 1. -/
def cDefOut : ClfState :=
  { timestamps := some (npSortInt (npUniqueInt (derivedRaw 20 1 1))),
    sampling_frac := none, min_length := some 1, max_length := some 1,
    classes_ := some (npUniqueNat [0]), class_prior := some (classPriorOf [0]),
    nb_classifiers := some ((npUniqueInt (derivedRaw 20 1 1)).length : ℤ),
    fittedCount := (npSortInt (npUniqueInt (derivedRaw 20 1 1))).length }

lemma fitStep_s3 (s : ClfState) (nCols : ℕ) (y : List ℕ) :
    fitStep s nCols y =
      (match (preValidated s nCols y).timestamps with
      | some ts =>
          if ts = [] then .error (emptyTsMsg, preValidated s nCols y)
          else if ts.any (fun t => t < 0) then .error (negTsMsg, preValidated s nCols y)
          else
            let s4 : ClfState :=
              if (npUniqueInt ts).length ≠ ts.length then
                { preValidated s nCols y with timestamps := some (npUniqueInt ts) }
              else preValidated s nCols y
            let s5 : ClfState :=
              if s4.sampling_frac ≠ none then { s4 with sampling_frac := none } else s4
            .ok (finishFit s5)
      | none =>
          match (preValidated s nCols y).sampling_frac with
          | some r =>
              if r ≤ 0 ∨ 1 < r then .error (fracMsg, preValidated s nCols y)
              else
                .ok (finishFit (deriveCkpts
                  { preValidated s nCols y with
                      nb_classifiers := some (countFromFrac r nCols (s.min_length.getD 1)) }
                  nCols (s.min_length.getD 1)))
          | none =>
              .ok (finishFit (deriveCkpts
                { preValidated s nCols y with nb_classifiers := some 20 }
                nCols (s.min_length.getD 1))) : Except (String × ClfState) ClfState) := by
  unfold fitStep preValidated
  cases hm : s.min_length <;> simp [hm]

lemma preValidated_timestamps (s : ClfState) (nCols : ℕ) (y : List ℕ) :
    (preValidated s nCols y).timestamps = s.timestamps := rfl

lemma preValidated_frac (s : ClfState) (nCols : ℕ) (y : List ℕ) :
    (preValidated s nCols y).sampling_frac = s.sampling_frac := rfl

lemma fitStep_err_empty (s : ClfState) (nCols : ℕ) (y : List ℕ)
    (h : s.timestamps = some []) :
    fitStep s nCols y = .error (emptyTsMsg, preValidated s nCols y) := by
  rw [fitStep_s3]; rw [preValidated_timestamps, h]; simp

lemma fitStep_err_neg (s : ClfState) (nCols : ℕ) (y : List ℕ) (ts : List ℤ)
    (h : s.timestamps = some ts) (hne : ts ≠ [])
    (hneg : ts.any (fun t => t < 0) = true) :
    fitStep s nCols y = .error (negTsMsg, preValidated s nCols y) := by
  rw [fitStep_s3]; rw [preValidated_timestamps, h]
  simp [hne, hneg]

lemma fitStep_ok_explicit (s : ClfState) (nCols : ℕ) (y : List ℕ) (ts : List ℤ)
    (h : s.timestamps = some ts) (hne : ts ≠ [])
    (hneg : ts.any (fun t => t < 0) = false) :
    fitStep s nCols y = .ok (finishFit
      (let s4 : ClfState :=
        if (npUniqueInt ts).length ≠ ts.length then
          { preValidated s nCols y with timestamps := some (npUniqueInt ts) }
        else preValidated s nCols y
      if s4.sampling_frac ≠ none then { s4 with sampling_frac := none } else s4)) := by
  rw [fitStep_s3]; rw [preValidated_timestamps, h]
  simp [hne, hneg]

lemma fitStep_err_frac (s : ClfState) (nCols : ℕ) (y : List ℕ) (r : ℚ)
    (hts : s.timestamps = none) (hfr : s.sampling_frac = some r)
    (hr : r ≤ 0 ∨ 1 < r) :
    fitStep s nCols y = .error (fracMsg, preValidated s nCols y) := by
  rw [fitStep_s3]; rw [preValidated_timestamps, hts]
  simp only [preValidated_frac, hfr]
  simp [hr]

lemma fitStep_ok_frac (s : ClfState) (nCols : ℕ) (y : List ℕ) (r : ℚ)
    (hts : s.timestamps = none) (hfr : s.sampling_frac = some r)
    (hr : ¬(r ≤ 0 ∨ 1 < r)) :
    fitStep s nCols y = .ok (finishFit (deriveCkpts
      { preValidated s nCols y with
          nb_classifiers := some (countFromFrac r nCols (s.min_length.getD 1)) }
      nCols (s.min_length.getD 1))) := by
  rw [fitStep_s3]; rw [preValidated_timestamps, hts]
  simp only [preValidated_frac, hfr]
  simp [hr]

lemma fitStep_ok_default (s : ClfState) (nCols : ℕ) (y : List ℕ)
    (hts : s.timestamps = none) (hfr : s.sampling_frac = none) :
    fitStep s nCols y = .ok (finishFit (deriveCkpts
      { preValidated s nCols y with nb_classifiers := some 20 }
      nCols (s.min_length.getD 1))) := by
  rw [fitStep_s3]; rw [preValidated_timestamps, hts]
  simp only [preValidated_frac, hfr]

lemma finishFit_some (s : ClfState) (ts : List ℤ) (h : s.timestamps = some ts) :
    finishFit s = { s with timestamps := some (npSortInt ts),
                           fittedCount := (npSortInt ts).length } := by
  unfold finishFit; rw [h]

lemma firstTrig_lt (m : EarlyModel) (i : ℕ) :
    ∀ t0 ft, firstTrig m i t0 = some ft → ft < t0 := by
  intro t0
  induction t0 with
  | zero => intro ft h; simp [firstTrig] at h
  | succ t ih =>
      intro ft h
      rw [firstTrig] at h
      cases hft : firstTrig m i t with
      | some ft0 =>
          rw [hft] at h
          exact lt_trans (ih ft (by simpa using h ▸ hft)) (Nat.lt_succ_self t)
      | none =>
          rw [hft] at h
          by_cases htr : m.trigger t i
          · simp [htr] at h; omega
          · simp [htr] at h

lemma firstTrig_mono (m : EarlyModel) (i : ℕ) (a b ft : ℕ) (hab : a ≤ b)
    (h : firstTrig m i a = some ft) : firstTrig m i b = some ft := by
  induction b, hab using Nat.le_induction with
  | base => exact h
  | succ b _ ih => rw [firstTrig, ih]

lemma stInv_init (m : EarlyModel) (y : List ℕ) (n : ℕ) : stInv m y n 0 initScoreSt := by
  intro i _
  refine ⟨by simp [initScoreSt, firstTrig], ?_, ?_⟩
  · intro ft h; simp [firstTrig] at h
  · intro _; simp [initScoreSt]

lemma scoreStep_inv (m : EarlyModel) (y : List ℕ) (n t0 l : ℕ) (st : ScoreSt)
    (hl : m.checkpoints.getD t0 0 = l)
    (hInv : stInv m y n t0 st) : stInv m y n (t0 + 1) (scoreStep m y t0 l st) := by
  intro i hi
  obtain ⟨h1, h2, h3⟩ := hInv i hi
  cases hft : firstTrig m i t0 with
  | some ft =>
      have hpast : st.pastTrigger i = true := h1.mpr (by rw [hft]; rfl)
      have hft1 : firstTrig m i (t0 + 1) = some ft := by rw [firstTrig, hft]
      obtain ⟨hp, ht, hf⟩ := h2 ft hft
      refine ⟨?_, ?_, ?_⟩
      · simp [scoreStep, hpast, hft1]
      · intro ft2 hft2
        rw [hft1] at hft2
        obtain rfl : ft = ft2 := by injection hft2
        simp [scoreStep, hpast, hp, ht, hf]
      · intro hcon; rw [hft1] at hcon; exact absurd hcon (by simp)
  | none =>
      have hpast : st.pastTrigger i = false := by
        cases h : st.pastTrigger i
        · rfl
        · exact absurd (h1.mp h) (by rw [hft]; simp)
      obtain ⟨hp, ht, hf⟩ := h3 hft
      by_cases htr : m.trigger t0 i
      · have hft1 : firstTrig m i (t0 + 1) = some t0 := by rw [firstTrig, hft]; simp [htr]
        refine ⟨?_, ?_, ?_⟩
        · simp [scoreStep, hpast, htr, hft1]
        · intro ft2 hft2
          rw [hft1] at hft2
          obtain rfl : t0 = ft2 := by injection hft2
          simp [scoreStep, hpast, htr, Int.toNat_natCast, ← hl]
        · intro hcon; rw [hft1] at hcon; exact absurd hcon (by simp)
      · have hft1 : firstTrig m i (t0 + 1) = none := by rw [firstTrig, hft]; simp [htr]
        refine ⟨?_, ?_, ?_⟩
        · simp [scoreStep, hpast, htr, hft1]
        · intro ft2 hft2; rw [hft1] at hft2; exact absurd hft2 (by simp)
        · intro _; simp [scoreStep, hpast, htr, hp, ht, hf]

lemma getLastD_eq_getElem (l : List ℕ) (h : l ≠ []) (hlt : l.length - 1 < l.length) :
    l.getLastD 0 = l[l.length - 1] := by
  rw [List.getLastD_eq_getLast?, List.getLast?_eq_getLast l h, Option.getD_some,
    List.getLast_eq_getElem]

lemma sorted_get_inj (l : List ℕ) (hs : l.Sorted (· < ·)) (i j : ℕ)
    (hi : i < l.length) (hj : j < l.length) (hij : l[i] = l[j]) : i = j := by
  rcases lt_trichotomy i j with h | h | h
  · exact absurd hij (ne_of_lt (List.Sorted.rel_get_of_lt hs (by simpa using h)))
  · exact h
  · exact absurd hij.symm (ne_of_lt (List.Sorted.rel_get_of_lt hs (by simpa using h)))

lemma scoreGo_spec (m : EarlyModel) (y : List ℕ) (n : ℕ)
    (hsort : m.checkpoints.Sorted (· < ·))
    (hcost : ∀ t p c, 0 ≤ m.cost t p c) :
    ∀ (rest : List ℕ) (t0 : ℕ) (st : ScoreSt),
      m.checkpoints.drop t0 = rest → t0 < m.checkpoints.length →
      stInv m y n t0 st → finalSpec m y n (scoreGo m y n t0 rest st) := by
  intro rest
  induction rest with
  | nil =>
      intro t0 st hdrop ht0 _
      exact absurd (List.drop_eq_nil_iff.mp hdrop) (by omega)
  | cons l rest' ih =>
      intro t0 st hdrop ht0 hInv
      have hne : m.checkpoints ≠ [] := by
        intro hcon; rw [hcon] at ht0; simp at ht0
      rw [List.drop_eq_getElem_cons ht0] at hdrop
      obtain ⟨hget, hdrop'⟩ : m.checkpoints[t0] = l ∧ m.checkpoints.drop (t0 + 1) = rest' := by
        constructor
        · exact (List.cons.injEq _ _ _ _ ▸ hdrop).1
        · exact (List.cons.injEq _ _ _ _ ▸ hdrop).2
      have hgetD : m.checkpoints.getD t0 0 = l := by
        rw [List.getD_eq_getElem _ _ ht0, hget]
      have hInv1 : stInv m y n (t0 + 1) (scoreStep m y t0 l st) :=
        scoreStep_inv m y n t0 l st hgetD hInv
      rw [scoreGo]
      by_cases hall : ((List.range n).all (scoreStep m y t0 l st).pastTrigger : Bool) = true
      · rw [if_pos hall]
        intro i hi
        obtain ⟨h1, h2, _⟩ := hInv1 i hi
        have hp : (scoreStep m y t0 l st).pastTrigger i = true :=
          List.all_eq_true.mp hall i (List.mem_range.mpr hi)
        obtain ⟨ft, hft⟩ := Option.isSome_iff_exists.mp (h1.mp hp)
        have hftT : firstTrig m i m.checkpoints.length = some ft :=
          firstTrig_mono m i (t0 + 1) m.checkpoints.length ft (by omega) hft
        have hts : tStarIdx m i = ft := by rw [tStarIdx, hftT]; rfl
        rw [hts]
        exact h2 ft hft
      · rw [if_neg hall]
        by_cases hl : l = m.checkpoints.getLastD 0
        · rw [if_pos hl]
          have hlen1 : m.checkpoints.length - 1 < m.checkpoints.length := by omega
          have ht0last : t0 = m.checkpoints.length - 1 := by
            apply sorted_get_inj m.checkpoints hsort t0 (m.checkpoints.length - 1) ht0 hlen1
            rw [hget, hl, getLastD_eq_getElem m.checkpoints hne hlen1]
          intro i hi
          obtain ⟨_, h2, h3⟩ := hInv1 i hi
          cases hft : firstTrig m i (t0 + 1) with
          | some ft =>
              obtain ⟨hp, ht, hf⟩ := h2 ft hft
              have hftT : firstTrig m i m.checkpoints.length = some ft :=
                firstTrig_mono m i (t0 + 1) m.checkpoints.length ft (by omega) hft
              have hts : tStarIdx m i = ft := by rw [tStarIdx, hftT]; rfl
              have hpge : ¬ (scoreStep m y t0 l st).allPreds i < 0 := by
                rw [hp]; exact not_lt.mpr (Int.natCast_nonneg _)
              have htge : ¬ (scoreStep m y t0 l st).allTStar i < 0 := by
                rw [ht]; exact not_lt.mpr (Int.natCast_nonneg _)
              have hfge : ¬ (scoreStep m y t0 l st).allFStar i < 0 := by
                rw [hf]; exact not_lt.mpr (hcost _ _ _)
              rw [hts]
              refine ⟨?_, ?_, ?_⟩
              · simp only [scoreForce, if_neg hpge]; exact hp
              · simp only [scoreForce, if_neg htge]; exact ht
              · simp only [scoreForce, if_neg hpge, if_neg hfge]; exact hf
          | none =>
              obtain ⟨hp, ht, hf⟩ := h3 hft
              have hftT : firstTrig m i m.checkpoints.length = none := by
                have : m.checkpoints.length = t0 + 1 := by omega
                rw [this]; exact hft
              have hts : tStarIdx m i = t0 := by rw [tStarIdx, hftT, Option.getD_none, ← ht0last]
              have hplt : (scoreStep m y t0 l st).allPreds i < 0 := by rw [hp]; norm_num
              have htlt : (scoreStep m y t0 l st).allTStar i < 0 := by rw [ht]; norm_num
              have hflt : (scoreStep m y t0 l st).allFStar i < 0 := by rw [hf]; norm_num
              rw [hts]
              refine ⟨?_, ?_, ?_⟩
              · simp only [scoreForce, if_pos hplt]
              · simp only [scoreForce, if_pos htlt]; rw [hgetD]
              · simp only [scoreForce, if_pos hplt, if_pos hflt]
                rw [← ht0last, Int.toNat_natCast]
        · rw [if_neg hl]
          have ht01 : t0 + 1 < m.checkpoints.length := by
            rcases Nat.lt_or_ge (t0 + 1) m.checkpoints.length with h | h
            · exact h
            · exfalso
              have hT : m.checkpoints.length = t0 + 1 := by omega
              apply hl
              rw [← hget, getLastD_eq_getElem m.checkpoints hne (by omega)]
              congr 1
              omega
          exact ih (t0 + 1) (scoreStep m y t0 l st) hdrop' ht01 hInv1

lemma scoreRunClf_spec (m : EarlyModel) (y : List ℕ)
    (hne : m.checkpoints ≠ []) (hsort : m.checkpoints.Sorted (· < ·))
    (hcost : ∀ t p c, 0 ≤ m.cost t p c) :
    finalSpec m y y.length (scoreRunClf m y) := by
  apply scoreGo_spec m y y.length hsort hcost m.checkpoints 0 initScoreSt rfl
  · exact List.length_pos.mpr hne
  · exact stInv_init m y y.length

lemma tStarIdx_lt (m : EarlyModel) (i : ℕ) (hne : m.checkpoints ≠ []) :
    tStarIdx m i < m.checkpoints.length := by
  have hpos : 0 < m.checkpoints.length := List.length_pos.mpr hne
  rw [tStarIdx]
  cases hft : firstTrig m i m.checkpoints.length with
  | some ft => simpa using firstTrig_lt m i _ ft hft
  | none => simp; omega

lemma npArgminAux_spec (g : ℕ → ℚ) :
    ∀ (xs : List ℚ) (i bi : ℕ) (bv : ℚ), g bi = bv →
      (∀ k, k < xs.length → g (i + k) = xs.getD k 0) →
      g (npArgminAux i bi bv xs).1 = (npArgminAux i bi bv xs).2 ∧
      (npArgminAux i bi bv xs).2 ≤ bv ∧
      ∀ x ∈ xs, (npArgminAux i bi bv xs).2 ≤ x := by
  intro xs
  induction xs with
  | nil => intro i bi bv hbi _; exact ⟨hbi, le_refl bv, by simp⟩
  | cons x xs ih =>
      intro i bi bv hbi hg
      have hgx : g i = x := by simpa using hg 0 (by simp)
      have hshift : ∀ k, k < xs.length → g (i + 1 + k) = xs.getD k 0 := by
        intro k hk
        have h2 := hg (k + 1) (by simpa using Nat.succ_lt_succ hk)
        rw [List.getD_cons_succ] at h2
        rw [show i + 1 + k = i + (k + 1) from by omega]
        exact h2
      by_cases hlt : x < bv
      · rw [npArgminAux, if_pos hlt]
        obtain ⟨ha, hb, hc⟩ := ih (i + 1) i x hgx hshift
        refine ⟨ha, le_trans hb (le_of_lt hlt), ?_⟩
        intro z hz
        rcases List.mem_cons.mp hz with rfl | hz2
        · exact hb
        · exact hc z hz2
      · rw [npArgminAux, if_neg hlt]
        obtain ⟨ha, hb, hc⟩ := ih (i + 1) bi bv hbi hshift
        refine ⟨ha, hb, ?_⟩
        intro z hz
        rcases List.mem_cons.mp hz with rfl | hz2
        · exact le_trans hb (not_lt.mp hlt)
        · exact hc z hz2

lemma npArgmin_getD_le (l : List ℚ) (hne : l ≠ []) :
    ∀ x ∈ l, l.getD (npArgmin l) 0 ≤ x := by
  cases l with
  | nil => exact absurd rfl hne
  | cons x xs =>
      have hbase : (fun j => (x :: xs).getD j 0) 0 = x := by simp
      have hstep : ∀ k, k < xs.length → (fun j => (x :: xs).getD j 0) (1 + k) = xs.getD k 0 := by
        intro k _; simp [Nat.add_comm 1 k]
      obtain ⟨ha, hb, hc⟩ := npArgminAux_spec (fun j => (x :: xs).getD j 0) xs 1 0 x hbase hstep
      intro z hz
      rcases List.mem_cons.mp hz with rfl | hz2
      · rw [npArgmin]; rw [ha]; exact hb
      · rw [npArgmin]; rw [ha]; exact hc z hz2

lemma fPostVal_le (m : EarlyModel) (y : List ℕ) (i t : ℕ)
    (ht : t < m.checkpoints.length) :
    fPostVal m y i ≤ fPost m y t i := by
  have hmem : fPost m y t i ∈ fPostCol m y i := by
    rw [fPostCol]
    exact List.mem_map.mpr ⟨t, List.mem_range.mpr ht, rfl⟩
  have hne : fPostCol m y i ≠ [] := by
    intro hcon; rw [hcon] at hmem; exact absurd hmem (List.not_mem_nil _)
  exact npArgmin_getD_le (fPostCol m y i) hne _ hmem

/-- C1, counterexample.  The claim quantifies over every fitted
`EarlyClassifier`; for a trigger model with `require_classifiers = False`,
`score` uses the trigger model's own class predictions (line 292) while
`get_post` evaluates the chronological classifiers' argmax predictions (lines
368–369), so the sequential decision can beat the "oracle": on `c1xModel`
with `y = [1]`, `get_post` reports mean cost 1 while `score` reports 0. -/
theorem earlyclf_C1_counterexample :
    ¬ (getPostAvgCost c1xModel [1] ≤ scoreAvgCost c1xModel [1]) := by
  have h1 : getPostAvgCost c1xModel [1] = 1 := by
    simp [getPostAvgCost, fPostVal, fPostCol, tPostIdx, fPost, npArgmin, npArgminAux,
      npArgmax, npArgmaxAux, nanGT, c1xModel, List.range_succ]
  have h2 : scoreAvgCost c1xModel [1] = 0 := by
    simp [scoreAvgCost, scoreResult, c1xModel, scoreRunNoClf, majorityClass, npUniqueNat,
      npArgmaxQ, npArgmaxQAux, searchsortedLeft, List.range_succ, List.findIdx, List.findIdx.go]
  rw [h1, h2]; norm_num

/-- C1, amended: for every fitted model whose trigger model relies on the
probabilistic classifiers (`require_classifiers = True`), with the fitted
sorted nonempty checkpoint list and nonnegative cost matrices, the mean
per-series cost reported by `get_post(X, y)` is at most the average realized
cost reported by `score(X, y)`: the hindsight minimum over checkpoints of the
realized cost of the argmax prediction is, series by series, at most the cost
realized at the checkpoint where the sequential trigger stopped. -/
theorem earlyclf_C1_amended (m : EarlyModel) (y : List ℕ)
    (hreq : m.requireClassifiers = true) (hne : m.checkpoints ≠ [])
    (hsort : m.checkpoints.Sorted (· < ·))
    (hcost : ∀ t p c, 0 ≤ m.cost t p c) :
    getPostAvgCost m y ≤ scoreAvgCost m y := by
  rw [getPostAvgCost, scoreAvgCost]
  apply div_le_div_of_nonneg_right ?_ (by positivity)
  apply List.sum_le_sum
  intro i hi
  have hi' : i < y.length := List.mem_range.mp hi
  have hfinal := scoreRunClf_spec m y hne hsort hcost i hi'
  have hres : scoreResult m y = scoreRunClf m y := by rw [scoreResult, if_pos hreq]
  rw [hres, hfinal.2.2]
  have : m.cost (tStarIdx m i) (npArgmax (m.probas (tStarIdx m i) i)) (y.getD i 0)
      = fPost m y (tStarIdx m i) i := rfl
  rw [this]
  exact fPostVal_le m y i (tStarIdx m i) (tStarIdx_lt m i hne)

/-- Witness for the amended C1 at a concrete fitted model. -/
theorem earlyclf_C1_amended_witness :
    c1wModel.requireClassifiers = true ∧ c1wModel.checkpoints ≠ [] ∧
    c1wModel.checkpoints.Sorted (· < ·) ∧ (∀ t p c, 0 ≤ c1wModel.cost t p c) ∧
    getPostAvgCost c1wModel [0] ≤ scoreAvgCost c1wModel [0] := by
  have hcost : ∀ t p c, 0 ≤ c1wModel.cost t p c := by
    intro t p c
    show (0:ℚ) ≤ 1
    norm_num
  exact ⟨rfl, by simp [c1wModel], by decide, hcost,
    earlyclf_C1_amended c1wModel [0] rfl (by simp [c1wModel]) (by decide) hcost⟩

/-- C7: code bug.  In `score`, a series never triggered is forcibly terminated
at the last checkpoint (visible below: its stopping length becomes the last
checkpoint length 5), but a series whose probability outputs are all NaN does
NOT receive the majority class: numpy `argmax` returns the index of the first
NaN, so the final prediction is class 0, while the majority class under
`class_prior` is 1.  The `np.isnan(all_preds)` fallback of lines 331–332
(whose comment announces the majority-class output) can never fire, because
`all_preds` only ever holds `-1` sentinels or integer argmax outputs. -/
theorem earlyclf_C7_nan_majority_bug :
    (scoreRunClf c7Model [0, 1, 1]).allPreds 0 = 0 ∧
    (scoreRunClf c7Model [0, 1, 1]).allTStar 0 = 5 ∧
    majorityClass [0, 1, 1] c7Model.classPrior = 1 ∧
    (0 : ℤ) ≠ 1 := by
  refine ⟨?_, ?_, ?_, by norm_num⟩
  · decide
  · decide
  · have h1 : npArgmaxQ c7Model.classPrior = 1 := by
      show npArgmaxQ [1/4, 3/4] = 1
      rw [npArgmaxQ, npArgmaxQAux, if_pos (by norm_num), npArgmaxQAux]
    rw [majorityClass, h1]
    decide

/-- C9: `score` is idempotent.  The embedding threads the fitted model's state
through `score` (`scoreCall`); since the body of `score` performs no
assignment to the model, the state comes back unchanged and a second call on
the returned state yields the identical metric triple. -/
theorem earlyclf_C9_score_idempotent (m : EarlyModel) (y : List ℕ) (maxT : ℕ) :
    (scoreCall (scoreCall m y maxT).2 y maxT).1 = (scoreCall m y maxT).1 ∧
    (scoreCall m y maxT).2 = m :=
  ⟨rfl, rfl⟩

/-- C10: assigning any value to any of the four forwarded public attributes
re-enters the same property setter and never completes within any finite
number of steps (the source recursion has no base case, so in CPython the
call stack grows until `RecursionError`); the attributes are effectively
write-inaccessible. -/
theorem earlyclf_C10_setter_divergence (a : FwdAttr) (v : ℤ) (fuel : ℕ) :
    setAttrSteps a v fuel = none := by
  induction fuel with
  | zero => rfl
  | succ n ih => rw [setAttrSteps]; exact ih

lemma npUniqueInt_nodup (l : List ℤ) : (npUniqueInt l).Nodup :=
  ((List.perm_insertionSort _ _).nodup_iff).mpr (List.nodup_dedup l)

lemma npUniqueInt_sorted_lt (l : List ℤ) : (npUniqueInt l).Sorted (· < ·) :=
  (List.sorted_insertionSort _ _).lt_of_le (npUniqueInt_nodup l)

lemma npUniqueInt_mem (l : List ℤ) (x : ℤ) : x ∈ npUniqueInt l ↔ x ∈ l := by
  rw [npUniqueInt, (List.perm_insertionSort _ _).mem_iff, List.mem_dedup]

lemma npSortInt_mem (l : List ℤ) (x : ℤ) : x ∈ npSortInt l ↔ x ∈ l :=
  (List.perm_insertionSort _ _).mem_iff

lemma npSortInt_sorted_lt (l : List ℤ) (h : l.Nodup) : (npSortInt l).Sorted (· < ·) :=
  (List.sorted_insertionSort _ _).lt_of_le (((List.perm_insertionSort _ _).nodup_iff).mpr h)

lemma nodup_of_npUniqueInt_len (l : List ℤ) (h : (npUniqueInt l).length = l.length) :
    l.Nodup := by
  rw [npUniqueInt, (List.perm_insertionSort _ _).length_eq] at h
  rw [← List.dedup_eq_self]
  exact (List.dedup_sublist l).eq_of_length h

lemma npUniqueInt_ne_nil (l : List ℤ) (h : l ≠ []) : npUniqueInt l ≠ [] := by
  obtain ⟨x, hx⟩ := List.exists_mem_of_ne_nil l h
  intro hcon
  have := (npUniqueInt_mem l x).mpr hx
  rw [hcon] at this
  exact absurd this (List.not_mem_nil x)

lemma npSortInt_ne_nil (l : List ℤ) (h : l ≠ []) : npSortInt l ≠ [] := by
  obtain ⟨x, hx⟩ := List.exists_mem_of_ne_nil l h
  intro hcon
  have := (npSortInt_mem l x).mpr hx
  rw [hcon] at this
  exact absurd this (List.not_mem_nil x)

lemma intTrunc_of_nonneg (q : ℚ) (h : 0 ≤ q) : intTrunc q = ⌊q⌋ := by
  rw [intTrunc, if_neg (not_lt.mpr h)]

lemma derivedRaw_mem (nb : ℤ) (nCols : ℕ) (minL : ℤ) (x : ℤ) :
    x ∈ derivedRaw nb nCols minL ↔
      ∃ i : ℤ, 1 ≤ i ∧ i ≤ nb ∧
        x = intTrunc ((((nCols : ℤ) - minL : ℤ) : ℚ) * (i : ℚ) / ((nb : ℤ) : ℚ)) + minL := by
  rw [derivedRaw]
  constructor
  · intro hx
    obtain ⟨k, hk, hfk⟩ := List.mem_map.mp hx
    have hk' : k < nb.toNat := List.mem_range.mp hk
    refine ⟨(k : ℤ) + 1, by omega, by omega, ?_⟩
    rw [← hfk]
    congr 2
  · intro ⟨i, h1, h2, hx⟩
    apply List.mem_map.mpr
    refine ⟨(i - 1).toNat, List.mem_range.mpr (by omega), ?_⟩
    rw [hx]
    congr 2
    have hq : (((i - 1).toNat : ℕ) : ℚ) = (i : ℚ) - 1 := by
      have h3 : ((i - 1).toNat : ℤ) = i - 1 := Int.toNat_of_nonneg (by omega)
      exact_mod_cast congrArg (fun z : ℤ => (z : ℚ)) h3
    push_cast [hq]
    ring

lemma derivedRaw_bounds (nb : ℤ) (nCols : ℕ) (minL : ℤ)
    (hD : 0 ≤ (nCols : ℤ) - minL) (t : ℤ)
    (ht : t ∈ derivedRaw nb nCols minL) : minL ≤ t ∧ t ≤ (nCols : ℤ) := by
  obtain ⟨i, h1, h2, hx⟩ := (derivedRaw_mem nb nCols minL t).mp ht
  have hnb : (1:ℤ) ≤ nb := le_trans h1 h2
  set D : ℤ := (nCols : ℤ) - minL with hDdef
  have hq0 : (0:ℚ) ≤ (D : ℚ) * (i : ℚ) / ((nb : ℤ) : ℚ) := by
    apply div_nonneg
    · apply mul_nonneg
      · exact_mod_cast hD
      · exact_mod_cast le_trans zero_le_one h1
    · exact_mod_cast le_trans zero_le_one hnb
  have hqD : (D : ℚ) * (i : ℚ) / ((nb : ℤ) : ℚ) ≤ (D : ℚ) := by
    rw [div_le_iff₀ (by exact_mod_cast lt_of_lt_of_le zero_lt_one hnb)]
    apply mul_le_mul_of_nonneg_left
    · exact_mod_cast h2
    · exact_mod_cast hD
  have hfl0 : (0:ℤ) ≤ ⌊(D : ℚ) * (i : ℚ) / ((nb : ℤ) : ℚ)⌋ := Int.floor_nonneg.mpr hq0
  have hflD : ⌊(D : ℚ) * (i : ℚ) / ((nb : ℤ) : ℚ)⌋ ≤ D := by
    have := Int.floor_le_floor hqD
    rwa [Int.floor_intCast] at this
  rw [hx, intTrunc_of_nonneg _ hq0]
  omega

lemma derivedRaw_ne_nil (nb : ℤ) (nCols : ℕ) (minL : ℤ) (hnb : 1 ≤ nb) :
    derivedRaw nb nCols minL ≠ [] := by
  have : ((1:ℤ) - 1).toNat < nb.toNat := by omega
  intro hcon
  have hm := (derivedRaw_mem nb nCols minL
    (intTrunc ((((nCols : ℤ) - minL : ℤ) : ℚ) * ((1:ℤ) : ℚ) / ((nb : ℤ) : ℚ)) + minL)).mpr
    ⟨1, le_refl 1, hnb, rfl⟩
  rw [hcon] at hm
  exact absurd hm (List.not_mem_nil _)

lemma countFromFrac_pos (r : ℚ) (nCols : ℕ) (minL : ℤ)
    (hr0 : 0 < r) (hr1 : r ≤ 1) (hml : minL ≤ (nCols : ℤ)) :
    1 ≤ countFromFrac r nCols minL := by
  rw [countFromFrac]
  have h1r : (1:ℚ) ≤ 1 / r := by
    rw [le_div_iff₀ hr0]; simpa using hr1
  have : (1:ℤ) ≤ intTrunc (1 / r) := by
    rw [intTrunc_of_nonneg _ (le_trans zero_le_one h1r)]
    have := Int.floor_le_floor h1r
    simpa using this
  omega

lemma intTrunc_pos_floor (r : ℚ) (hr0 : 0 < r) : intTrunc (1 / r) = ⌊1 / r⌋ :=
  intTrunc_of_nonneg _ (le_of_lt (by positivity))

lemma deriveCkpts_timestamps (s : ClfState) (nCols : ℕ) (minL : ℤ) :
    (deriveCkpts s nCols minL).timestamps =
      some (npUniqueInt (derivedRaw (s.nb_classifiers.getD 0) nCols minL)) := rfl

lemma deriveCkpts_nb (s : ClfState) (nCols : ℕ) (minL : ℤ) :
    (deriveCkpts s nCols minL).nb_classifiers =
      some ((npUniqueInt (derivedRaw (s.nb_classifiers.getD 0) nCols minL)).length : ℤ) := rfl

lemma fitStep_ok_frac_fields (s : ClfState) (nCols : ℕ) (y : List ℕ) (r : ℚ)
    (hts : s.timestamps = none) (hfr : s.sampling_frac = some r)
    (hr : ¬(r ≤ 0 ∨ 1 < r)) (s' : ClfState) (hok : fitStep s nCols y = .ok s') :
    s'.timestamps = some (npSortInt (npUniqueInt
      (derivedRaw (countFromFrac r nCols (s.min_length.getD 1)) nCols (s.min_length.getD 1)))) ∧
    s'.nb_classifiers = some ((npUniqueInt
      (derivedRaw (countFromFrac r nCols (s.min_length.getD 1)) nCols (s.min_length.getD 1))).length : ℤ) := by
  rw [fitStep_ok_frac s nCols y r hts hfr hr] at hok
  injection hok with h'
  subst h'
  exact ⟨rfl, rfl⟩

lemma fitStep_ok_default_fields (s : ClfState) (nCols : ℕ) (y : List ℕ)
    (hts : s.timestamps = none) (hfr : s.sampling_frac = none)
    (s' : ClfState) (hok : fitStep s nCols y = .ok s') :
    s'.timestamps = some (npSortInt (npUniqueInt
      (derivedRaw 20 nCols (s.min_length.getD 1)))) ∧
    s'.nb_classifiers = some ((npUniqueInt
      (derivedRaw 20 nCols (s.min_length.getD 1))).length : ℤ) := by
  rw [fitStep_ok_default s nCols y hts hfr] at hok
  injection hok with h'
  subst h'
  exact ⟨rfl, rfl⟩

lemma fitStep_ok_explicit_timestamps (s : ClfState) (nCols : ℕ) (y : List ℕ) (ts0 : List ℤ)
    (h : s.timestamps = some ts0) (hne : ts0 ≠ [])
    (hneg : ts0.any (fun t => t < 0) = false) (s' : ClfState)
    (hok : fitStep s nCols y = .ok s') :
    (s'.timestamps = some (npSortInt (npUniqueInt ts0))) ∨
    (s'.timestamps = some (npSortInt ts0) ∧ (npUniqueInt ts0).length = ts0.length) := by
  rw [fitStep_ok_explicit s nCols y ts0 h hne hneg] at hok
  injection hok with h'
  subst h'
  by_cases hdup : (npUniqueInt ts0).length ≠ ts0.length
  · left
    simp only [if_pos hdup]
    split
    · rw [finishFit_some _ (npUniqueInt ts0) (by simp)]
    · rw [finishFit_some _ (npUniqueInt ts0) (by simp)]
  · right
    refine ⟨?_, not_not.mp hdup⟩
    simp only [if_neg hdup]
    split
    · rw [finishFit_some _ ts0 (by simp [preValidated, h])]
    · rw [finishFit_some _ ts0 (by simp [preValidated, h])]

/-- C2, counterexample: explicit timestamps are only validated to be
non-negative integers (`_base.py` lines 50–54) — no comparison against
`max_length` is ever made — so `fit` accepts `timestamps=[200]` on series of
length 100 and stores the checkpoint 200 > max_length = 100, violating the
claimed bound. -/
theorem base_C2_counterexample : ¬ fitBoundsClaim := by
  intro h
  have hfit : fitStep (initClf (some [200]) none (some 1)) 100 [0, 1] = .ok c2xOut := by rfl
  have hb := (h _ _ _ _ _ hfit rfl).2.2 200 (by simp)
  have : ¬ ((200 : ℤ) ≤ ((c2xOut.max_length.getD 0 : ℕ) : ℤ)) := by
    show ¬ ((200 : ℤ) ≤ ((100 : ℕ) : ℤ))
    norm_num
  exact this hb.2

/-- C2, amended: after every successful `fit` the stored checkpoint sequence
is strictly increasing and duplicate-free; and whenever the checkpoints were
derived from a count (no explicit timestamps given) and `min_length ≤
max_length`, the sequence is nonempty with every element (in particular its
minimum and maximum) inside `[min_length, max_length]`.  For explicit
timestamp lists only non-negativity is validated, so the range containment
can fail there (see the counterexample). -/
theorem base_C2_amended (s : ClfState) (nCols : ℕ) (y : List ℕ) (s' : ClfState) (ts : List ℤ)
    (hok : fitStep s nCols y = .ok s') (hts : s'.timestamps = some ts) :
    ts.Sorted (· < ·) ∧
    (s.timestamps = none → s.min_length.getD 1 ≤ (nCols : ℤ) →
      ts ≠ [] ∧ ∀ t ∈ ts, s.min_length.getD 1 ≤ t ∧ t ≤ (nCols : ℤ)) := by
  cases hts0 : s.timestamps with
  | some ts0 =>
      by_cases hemp : ts0 = []
      · rw [fitStep_err_empty s nCols y (by rw [hts0, hemp])] at hok
        exact absurd hok (by simp)
      by_cases hneg : ts0.any (fun t => t < 0) = true
      · rw [fitStep_err_neg s nCols y ts0 hts0 hemp hneg] at hok
        exact absurd hok (by simp)
      have hneg' : ts0.any (fun t => t < 0) = false := by
        cases hv : ts0.any (fun t => t < 0)
        · rfl
        · exact absurd hv hneg
      constructor
      · rcases fitStep_ok_explicit_timestamps s nCols y ts0 hts0 hemp hneg' s' hok with
          h1 | ⟨h1, h2⟩
        · rw [h1] at hts
          have h3 : npSortInt (npUniqueInt ts0) = ts := by injection hts
          rw [← h3]
          exact npSortInt_sorted_lt _ (npUniqueInt_nodup ts0)
        · rw [h1] at hts
          have h3 : npSortInt ts0 = ts := by injection hts
          rw [← h3]
          exact npSortInt_sorted_lt _ (nodup_of_npUniqueInt_len ts0 h2)
      · intro hcon
        exact absurd hcon (by simp)
  | none =>
      cases hfr : s.sampling_frac with
      | some r =>
          by_cases hrv : r ≤ 0 ∨ 1 < r
          · rw [fitStep_err_frac s nCols y r hts0 hfr hrv] at hok
            exact absurd hok (by simp)
          · obtain ⟨h1, _⟩ := fitStep_ok_frac_fields s nCols y r hts0 hfr hrv s' hok
            rw [h1] at hts
            have h3 : npSortInt (npUniqueInt (derivedRaw
                (countFromFrac r nCols (s.min_length.getD 1)) nCols
                (s.min_length.getD 1))) = ts := by
              injection hts
            push_neg at hrv
            refine ⟨?_, ?_⟩
            · rw [← h3]; exact npSortInt_sorted_lt _ (npUniqueInt_nodup _)
            · intro _ hml
              have hnb : 1 ≤ countFromFrac r nCols (s.min_length.getD 1) :=
                countFromFrac_pos r nCols _ hrv.1 hrv.2 hml
              rw [← h3]
              refine ⟨npSortInt_ne_nil _ (npUniqueInt_ne_nil _
                (derivedRaw_ne_nil _ nCols _ hnb)), ?_⟩
              intro t htmem
              exact derivedRaw_bounds _ nCols _ (by omega) t
                ((npUniqueInt_mem _ t).mp ((npSortInt_mem _ t).mp htmem))
      | none =>
          obtain ⟨h1, _⟩ := fitStep_ok_default_fields s nCols y hts0 hfr s' hok
          rw [h1] at hts
          have h3 : npSortInt (npUniqueInt (derivedRaw 20 nCols
              (s.min_length.getD 1))) = ts := by
            injection hts
          refine ⟨?_, ?_⟩
          · rw [← h3]; exact npSortInt_sorted_lt _ (npUniqueInt_nodup _)
          · intro _ hml
            have hnb : (1:ℤ) ≤ 20 := by norm_num
            rw [← h3]
            refine ⟨npSortInt_ne_nil _ (npUniqueInt_ne_nil _
              (derivedRaw_ne_nil _ nCols _ hnb)), ?_⟩
            intro t htmem
            exact derivedRaw_bounds _ nCols _ (by omega) t
              ((npUniqueInt_mem _ t).mp ((npSortInt_mem _ t).mp htmem))

lemma finishFit_nb (s : ClfState) : (finishFit s).nb_classifiers = s.nb_classifiers := by
  rw [finishFit]
  split
  · rfl
  · rfl

lemma le_foldl_max_init (l : List ℕ) (a : ℕ) : a ≤ l.foldl max a := by
  induction l generalizing a with
  | nil => exact le_refl a
  | cons x xs ih => exact le_trans (le_max_left a x) (ih (max a x))

lemma le_foldl_max (l : List ℕ) (a x : ℕ) (hx : x ∈ l) : x ≤ l.foldl max a := by
  induction l generalizing a with
  | nil => exact absurd hx (List.not_mem_nil x)
  | cons z zs ih =>
      rcases List.mem_cons.mp hx with rfl | hx2
      · exact le_trans (le_max_right a x) (le_foldl_max_init zs (max a x))
      · exact ih (max a z) hx2

lemma foldl_max_mem (l : List ℕ) (a : ℕ) : l.foldl max a = a ∨ l.foldl max a ∈ l := by
  induction l generalizing a with
  | nil => exact Or.inl rfl
  | cons x xs ih =>
      rcases ih (max a x) with h | h
      · rcases Nat.le_total a x with hax | hxa
        · right
          rw [List.foldl_cons, h, max_eq_right hax]
          exact List.mem_cons_self x xs
        · left
          rw [List.foldl_cons, h, max_eq_left hxa]
      · right
        exact List.mem_cons.mpr (Or.inr h)

/-- C3: a series strictly shorter than the smallest checkpoint is grouped
under its own length (which matches no checkpoint, so no fitted classifier is
indexed with it), and the spec-modelled dispatcher answers it with the class
prior; `predict` then returns the argmax of the prior. -/
theorem base_C3_prior_fallback (tss : List ℕ) (prior : List ℚ)
    (clfOut : ℕ → List ℚ → List ℚ) (serie : List ℚ)
    (hne : tss ≠ []) (hsort : tss.Sorted (· ≤ ·))
    (hlen : serie.length < tss.headD 0) :
    processSerie tss serie = (serie.length, serie) ∧
    serie.length ∉ tss ∧
    predictProbaSerie tss prior clfOut serie = prior ∧
    predictSerie tss prior clfOut serie = npArgmaxQ prior := by
  have hmem : serie.length ∉ tss := by
    intro hx
    have hle : tss.headD 0 ≤ serie.length := by
      cases tss with
      | nil => exact absurd rfl hne
      | cons h t =>
          rw [List.headD_cons]
          rcases List.mem_cons.mp hx with heq | hx2
          · exact le_of_eq heq.symm
          · exact (List.sorted_cons.mp hsort).1 _ hx2
    exact absurd hlen (not_lt.mpr hle)
  have hproc : processSerie tss serie = (serie.length, serie) := by
    rw [processSerie, if_neg]
    intro hcon
    exact absurd hcon.2 (not_lt.mpr (le_of_lt hlen))
  refine ⟨hproc, hmem, ?_, ?_⟩
  · rw [predictProbaSerie, hproc, dispatchGroup, if_pos hlen]
  · rw [predictSerie, predictProbaSerie, hproc, dispatchGroup, if_pos hlen]

/-- Witness for C3 at a concrete fitted ensemble: checkpoints `[3, 5]`, a
series of length 2, prior `[1]`. -/
theorem base_C3_prior_fallback_witness :
    (([3, 5] : List ℕ) ≠ [] ∧ ([3, 5] : List ℕ).Sorted (· ≤ ·) ∧
      ([(1 : ℚ), 2] : List ℚ).length < ([3, 5] : List ℕ).headD 0) ∧
    (processSerie [3, 5] [(1 : ℚ), 2] = (2, [(1 : ℚ), 2]) ∧
      ([(1 : ℚ), 2] : List ℚ).length ∉ ([3, 5] : List ℕ) ∧
      predictProbaSerie [3, 5] [1] (fun _ _ => []) [(1 : ℚ), 2] = [1] ∧
      predictSerie [3, 5] [1] (fun _ _ => []) [(1 : ℚ), 2] = npArgmaxQ [1]) := by
  refine ⟨⟨by simp, by decide, by decide⟩, ?_⟩
  exact base_C3_prior_fallback [3, 5] [1] (fun _ _ => []) [(1 : ℚ), 2]
    (by simp) (by decide) (by decide)

/-- C6, counterexample: with fitted checkpoints `[0, 10]` (0 is accepted by
`fit`, which only rejects negative timestamps) a series of length 5 matches no
checkpoint and exceeds the smallest one; the largest checkpoint not exceeding
its length is 0, and under Python truthiness (`if length:` on line 142) the
series is NOT truncated: it is stored whole under group key 0. -/
theorem grouped_C6_counterexample : ¬ truncClaimAt [0, 10] [1, 2, 3, 4, 5] := by
  intro h
  have := h (by decide) (by decide)
  rw [show processSerie [0, 10] [1, 2, 3, 4, 5] = (0, [1, 2, 3, 4, 5]) from by decide] at this
  simp at this

/-- C6, amended: when the largest checkpoint not exceeding the series length
is nonzero, the series is truncated to it and grouped under it (and that key
really is the greatest checkpoint below the length, and a fitted one); the
truncation warning is emitted at most once per call regardless of the batch.
When that checkpoint is 0, the series is grouped under key 0 untruncated (see
the counterexample). -/
theorem grouped_C6_amended (tss : List ℕ) (serie : List ℚ) (x : List (List ℚ))
    (h1 : serie.length ∉ tss) (h2 : tss.headD 0 < serie.length)
    (h3 : (tss.filter (fun c => c ≤ serie.length)).foldl max 0 ≠ 0) :
    processSerie tss serie =
      ((tss.filter (fun c => c ≤ serie.length)).foldl max 0,
        serie.take ((tss.filter (fun c => c ≤ serie.length)).foldl max 0)) ∧
    (tss.filter (fun c => c ≤ serie.length)).foldl max 0 ∈ tss ∧
    (tss.filter (fun c => c ≤ serie.length)).foldl max 0 ≤ serie.length ∧
    (∀ c ∈ tss, c ≤ serie.length →
      c ≤ (tss.filter (fun c => c ≤ serie.length)).foldl max 0) ∧
    (truncWarnings tss x).length ≤ 1 := by
  have hmax : (tss.filter (fun c => c ≤ serie.length)).foldl max 0 ∈
      tss.filter (fun c => c ≤ serie.length) := by
    rcases foldl_max_mem (tss.filter (fun c => c ≤ serie.length)) 0 with h | h
    · exact absurd h h3
    · exact h
  refine ⟨?_, ?_, ?_, ?_, ?_⟩
  · rw [processSerie, if_pos ⟨h1, h2⟩]
    simp only [if_pos h3]
  · exact List.mem_of_mem_filter hmax
  · exact of_decide_eq_true (List.mem_filter.mp hmax).2
  · intro c hc hcle
    exact le_foldl_max _ 0 c (List.mem_filter.mpr ⟨hc, decide_eq_true hcle⟩)
  · rw [truncWarnings]
    split
    · simp
    · simp

/-- Witness for the amended C6: checkpoints `[2, 4]`, a series of length 3
(truncated to length 2), empty batch for the warning count. -/
theorem grouped_C6_amended_witness :
    (([(1 : ℚ), 2, 3] : List ℚ).length ∉ ([2, 4] : List ℕ) ∧
      ([2, 4] : List ℕ).headD 0 < ([(1 : ℚ), 2, 3] : List ℚ).length ∧
      (([2, 4] : List ℕ).filter (fun c => c ≤ ([(1 : ℚ), 2, 3] : List ℚ).length)).foldl
        max 0 ≠ 0) ∧
    processSerie [2, 4] [(1 : ℚ), 2, 3] = (2, [(1 : ℚ), 2]) := by
  refine ⟨⟨by decide, by decide, by decide⟩, ?_⟩
  have h := (grouped_C6_amended [2, 4] [(1 : ℚ), 2, 3] [] (by decide) (by decide)
    (by decide)).1
  rw [h]
  decide

/-- C8, amended: every raising `fit` call leaves `timestamps`,
`sampling_ratio`, `nb_classifiers` and the fitted classifiers untouched, but
the attributes assigned before validation — `max_length`, the defaulted
`min_length`, `classes_` and `class_prior` — are already mutated at the time
of the raise (`_base.py` lines 33–40 run before the validation of lines
43–79). -/
theorem base_C8_amended (s : ClfState) (nCols : ℕ) (y : List ℕ) (msg : String)
    (s2 : ClfState) (h : fitStep s nCols y = .error (msg, s2)) :
    s2.fittedCount = s.fittedCount ∧ s2.nb_classifiers = s.nb_classifiers ∧
    s2.timestamps = s.timestamps ∧ s2.sampling_frac = s.sampling_frac ∧
    s2.max_length = some nCols ∧ s2.min_length = some (s.min_length.getD 1) ∧
    s2.classes_ = some (npUniqueNat y) ∧ s2.class_prior = some (classPriorOf y) := by
  have h2 : s2 = preValidated s nCols y := by
    cases hts : s.timestamps with
    | some ts =>
        by_cases hemp : ts = []
        · subst hemp
          rw [fitStep_err_empty s nCols y hts] at h
          injection h with h'
          injection h' with ha hb
          exact hb.symm
        by_cases hneg : ts.any (fun t => t < 0) = true
        · rw [fitStep_err_neg s nCols y ts hts hemp hneg] at h
          injection h with h'
          injection h' with ha hb
          exact hb.symm
        · have hneg' : ts.any (fun t => t < 0) = false := by
            cases hv : ts.any (fun t => t < 0)
            · rfl
            · exact absurd hv hneg
          rw [fitStep_ok_explicit s nCols y ts hts hemp hneg'] at h
          exact absurd h (by simp)
    | none =>
        cases hfr : s.sampling_frac with
        | some r =>
            by_cases hrv : r ≤ 0 ∨ 1 < r
            · rw [fitStep_err_frac s nCols y r hts hfr hrv] at h
              injection h with h'
              injection h' with ha hb
              exact hb.symm
            · rw [fitStep_ok_frac s nCols y r hts hfr hrv] at h
              exact absurd h (by simp)
        | none =>
            rw [fitStep_ok_default s nCols y hts hfr] at h
            exact absurd h (by simp)
  subst h2
  exact ⟨rfl, rfl, rfl, rfl, rfl, rfl, rfl, rfl⟩

/-- C8, counterexample: `fit` with the invalid sampling ratio 2 raises, yet
the failed call has already mutated the observable state — `classes_`,
`class_prior`, `max_length` and `min_length` go from unset to set — so the
claimed absence of partial mutation is false. -/
theorem base_C8_counterexample :
    fitStep c8xIn 10 [0, 1] = .error (fracMsg, preValidated c8xIn 10 [0, 1]) ∧
    (preValidated c8xIn 10 [0, 1]).classes_ = some [0, 1] ∧ c8xIn.classes_ = none ∧
    (preValidated c8xIn 10 [0, 1]).max_length = some 10 ∧ c8xIn.max_length = none ∧
    (preValidated c8xIn 10 [0, 1]).min_length = some 1 ∧ c8xIn.min_length = none := by
  refine ⟨fitStep_err_frac c8xIn 10 [0, 1] 2 rfl rfl (Or.inr (by norm_num)),
    ?_, rfl, rfl, rfl, rfl, rfl⟩
  decide

/-- Witness for the amended C8 at the same concrete raising call. -/
theorem base_C8_amended_witness :
    fitStep c8xIn 10 [0, 1] = .error (fracMsg, preValidated c8xIn 10 [0, 1]) ∧
    ((preValidated c8xIn 10 [0, 1]).fittedCount = c8xIn.fittedCount ∧
      (preValidated c8xIn 10 [0, 1]).nb_classifiers = c8xIn.nb_classifiers ∧
      (preValidated c8xIn 10 [0, 1]).timestamps = c8xIn.timestamps ∧
      (preValidated c8xIn 10 [0, 1]).sampling_frac = c8xIn.sampling_frac ∧
      (preValidated c8xIn 10 [0, 1]).max_length = some 10 ∧
      (preValidated c8xIn 10 [0, 1]).min_length = some (c8xIn.min_length.getD 1) ∧
      (preValidated c8xIn 10 [0, 1]).classes_ = some (npUniqueNat [0, 1]) ∧
      (preValidated c8xIn 10 [0, 1]).class_prior = some (classPriorOf [0, 1])) := by
  have hfit : fitStep c8xIn 10 [0, 1] = .error (fracMsg, preValidated c8xIn 10 [0, 1]) :=
    fitStep_err_frac c8xIn 10 [0, 1] 2 rfl rfl (Or.inr (by norm_num))
  exact ⟨hfit, base_C8_amended c8xIn 10 [0, 1] fracMsg (preValidated c8xIn 10 [0, 1]) hfit⟩

lemma count_quarter : countFromFrac (1/4) 100 1 = 4 := by
  norm_num [countFromFrac, intTrunc]

lemma raw_quarter : derivedRaw 4 100 1 = [25, 50, 75, 100] := by
  have hr : List.range (Int.toNat 4) = [0, 1, 2, 3] := by decide
  norm_num [derivedRaw, hr, intTrunc]

lemma count_c4x : countFromFrac (3/20) 100 1 = 6 := by
  norm_num [countFromFrac, intTrunc]

lemma raw_c4x : derivedRaw 6 100 1 = [17, 34, 50, 67, 83, 100] := by
  have hr : List.range (Int.toNat 6) = [0, 1, 2, 3, 4, 5] := by decide
  norm_num [derivedRaw, hr, intTrunc]

/-- C4, counterexample: the code computes `int(1/ratio)` — truncation — not
`round(1/ratio)`.  For `sampling_ratio = 3/20` (that is, 0.15),
`1/ratio = 20/3 ≈ 6.67`: the code sets the classifier count to 6 (six distinct
checkpoints are produced, so the stored count stays 6), while the claimed
formula gives `min(round(20/3), 100) = 7`. -/
theorem base_C4_counterexample :
    (∃ s', fitStep (initClf none (some (3/20)) (some 1)) 100 [0, 1] = .ok s' ∧
      s'.nb_classifiers = some 6) ∧
    c4ClaimCount (3/20) 100 1 = 7 ∧ (6 : ℤ) ≠ 7 := by
  refine ⟨?_, ?_, by norm_num⟩
  · have hrv : ¬((3:ℚ)/20 ≤ 0 ∨ 1 < (3:ℚ)/20) := by norm_num
    have hfit := fitStep_ok_frac (initClf none (some (3/20)) (some 1)) 100 [0, 1]
      (3/20) rfl rfl hrv
    refine ⟨_, hfit, ?_⟩
    rw [(fitStep_ok_frac_fields _ 100 [0, 1] (3/20) rfl rfl hrv _ hfit).2]
    rw [show (initClf none (some (3/20)) (some 1)).min_length.getD 1 = 1 from rfl,
      count_c4x, raw_c4x]
    decide
  · norm_num [c4ClaimCount, round_eq]

/-- C4, amended: `fit` with a sampling ratio and no explicit timestamps raises
exactly when the ratio lies outside `(0, 1]`; otherwise the classifier count
is set to `min(floor(1/ratio), max_length - min_length + 1)` — truncation,
not rounding — and the checkpoints are derived from that count.  The claimed
scenario holds: for ratio 1/4, `max_length = 100`, `min_length = 1` the count
is 4 and the four distinct sorted checkpoints `[25, 50, 75, 100]` between 1
and 100 are produced. -/
theorem base_C4_amended (s : ClfState) (nCols : ℕ) (y : List ℕ) (r : ℚ)
    (hts : s.timestamps = none) (hfr : s.sampling_frac = some r) :
    ((r ≤ 0 ∨ 1 < r) → fitStep s nCols y = .error (fracMsg, preValidated s nCols y)) ∧
    (0 < r → r ≤ 1 →
      countFromFrac r nCols (s.min_length.getD 1) =
        min ⌊1 / r⌋ ((nCols : ℤ) - s.min_length.getD 1 + 1) ∧
      fitStep s nCols y = .ok (finishFit (deriveCkpts
        { preValidated s nCols y with
            nb_classifiers := some (countFromFrac r nCols (s.min_length.getD 1)) }
        nCols (s.min_length.getD 1)))) ∧
    (∃ s', fitStep (initClf none (some (1/4)) (some 1)) 100 [0, 1] = .ok s' ∧
      s'.nb_classifiers = some 4 ∧ s'.timestamps = some [25, 50, 75, 100]) := by
  refine ⟨fun hr => fitStep_err_frac s nCols y r hts hfr hr, fun h0 h1 => ⟨?_, ?_⟩, ?_⟩
  · rw [countFromFrac, intTrunc_pos_floor r h0]
  · refine fitStep_ok_frac s nCols y r hts hfr ?_
    push_neg
    exact ⟨h0, h1⟩
  · have hrv : ¬((1:ℚ)/4 ≤ 0 ∨ 1 < (1:ℚ)/4) := by norm_num
    have hfit := fitStep_ok_frac (initClf none (some (1/4)) (some 1)) 100 [0, 1]
      (1/4) rfl rfl hrv
    refine ⟨_, hfit, ?_, ?_⟩
    · rw [(fitStep_ok_frac_fields _ 100 [0, 1] (1/4) rfl rfl hrv _ hfit).2]
      rw [show (initClf none (some (1/4)) (some 1)).min_length.getD 1 = 1 from rfl,
        count_quarter, raw_quarter]
      decide
    · rw [(fitStep_ok_frac_fields _ 100 [0, 1] (1/4) rfl rfl hrv _ hfit).1]
      rw [show (initClf none (some (1/4)) (some 1)).min_length.getD 1 = 1 from rfl,
        count_quarter, raw_quarter]
      decide

/-- Witness for the amended C4 at ratio 1/4, `max_length = 100`. -/
theorem base_C4_amended_witness :
    c4wIn.timestamps = none ∧ c4wIn.sampling_frac = some (1/4) ∧
    ((((1:ℚ)/4) ≤ 0 ∨ 1 < ((1:ℚ)/4)) →
      fitStep c4wIn 100 [0, 1] = .error (fracMsg, preValidated c4wIn 100 [0, 1])) ∧
    (0 < ((1:ℚ)/4) → ((1:ℚ)/4) ≤ 1 →
      countFromFrac (1/4) 100 (c4wIn.min_length.getD 1) =
        min ⌊1 / ((1:ℚ)/4)⌋ ((100 : ℤ) - c4wIn.min_length.getD 1 + 1) ∧
      fitStep c4wIn 100 [0, 1] = .ok (finishFit (deriveCkpts
        { preValidated c4wIn 100 [0, 1] with
            nb_classifiers := some (countFromFrac (1/4) 100 (c4wIn.min_length.getD 1)) }
        100 (c4wIn.min_length.getD 1)))) ∧
    (∃ s', fitStep (initClf none (some (1/4)) (some 1)) 100 [0, 1] = .ok s' ∧
      s'.nb_classifiers = some 4 ∧ s'.timestamps = some [25, 50, 75, 100]) := by
  have h := base_C4_amended c4wIn 100 [0, 1] (1/4) rfl rfl
  exact ⟨rfl, rfl, h.1, h.2.1, h.2.2⟩

/-- C5: when checkpoints are derived from a count (no explicit timestamps),
the stored checkpoint set is exactly
`{ floor((max_length - min_length) * i / count) + min_length : i = 1..count }`
after deduplication — `intTrunc` coincides with `floor` here since the
generated values are nonnegative exactly as computed — and the stored
classifier count is updated to the size of that deduplicated set. -/
theorem base_C5_derived (s : ClfState) (nCols : ℕ) (y : List ℕ) (s' : ClfState)
    (hts : s.timestamps = none) (hok : fitStep s nCols y = .ok s') :
    ∃ nb : ℤ,
      (s.sampling_frac = none ∧ nb = 20 ∨
        ∃ r, s.sampling_frac = some r ∧ nb = countFromFrac r nCols (s.min_length.getD 1)) ∧
      s'.timestamps = some (npSortInt (npUniqueInt (derivedRaw nb nCols (s.min_length.getD 1)))) ∧
      (∀ x : ℤ, x ∈ npUniqueInt (derivedRaw nb nCols (s.min_length.getD 1)) ↔
        ∃ i : ℤ, 1 ≤ i ∧ i ≤ nb ∧
          x = intTrunc ((((nCols : ℤ) - s.min_length.getD 1 : ℤ) : ℚ) * (i : ℚ)
            / ((nb : ℤ) : ℚ)) + s.min_length.getD 1) ∧
      (npUniqueInt (derivedRaw nb nCols (s.min_length.getD 1))).Nodup ∧
      s'.nb_classifiers =
        some ((npUniqueInt (derivedRaw nb nCols (s.min_length.getD 1))).length : ℤ) := by
  cases hfr : s.sampling_frac with
  | some r =>
      by_cases hrv : r ≤ 0 ∨ 1 < r
      · rw [fitStep_err_frac s nCols y r hts hfr hrv] at hok
        exact absurd hok (by simp)
      · obtain ⟨h1, h2⟩ := fitStep_ok_frac_fields s nCols y r hts hfr hrv s' hok
        refine ⟨countFromFrac r nCols (s.min_length.getD 1),
          Or.inr ⟨r, rfl, rfl⟩, h1, ?_, npUniqueInt_nodup _, h2⟩
        intro x
        rw [npUniqueInt_mem, derivedRaw_mem]
  | none =>
      obtain ⟨h1, h2⟩ := fitStep_ok_default_fields s nCols y hts hfr s' hok
      refine ⟨20, Or.inl ⟨rfl, rfl⟩, h1, ?_, npUniqueInt_nodup _, h2⟩
      intro x
      rw [npUniqueInt_mem, derivedRaw_mem]

lemma cDef_fit : fitStep (initClf none none none) 1 [0] = .ok cDefOut := by
  rw [fitStep_ok_default _ _ _ rfl rfl]
  rfl

/-- Witness for the amended C2 at the default derived configuration. -/
theorem base_C2_amended_witness :
    fitStep (initClf none none none) 1 [0] = .ok cDefOut ∧
    cDefOut.timestamps = some (npSortInt (npUniqueInt (derivedRaw 20 1 1))) ∧
    ((npSortInt (npUniqueInt (derivedRaw 20 1 1))).Sorted (· < ·) ∧
      ((initClf none none none).timestamps = none →
        (initClf none none none).min_length.getD 1 ≤ ((1 : ℕ) : ℤ) →
        npSortInt (npUniqueInt (derivedRaw 20 1 1)) ≠ [] ∧
        ∀ t ∈ npSortInt (npUniqueInt (derivedRaw 20 1 1)),
          (initClf none none none).min_length.getD 1 ≤ t ∧ t ≤ ((1 : ℕ) : ℤ))) :=
  ⟨cDef_fit, rfl, base_C2_amended (initClf none none none) 1 [0] cDefOut _ cDef_fit rfl⟩

/-- Witness for C5 at the default derived configuration. -/
theorem base_C5_derived_witness :
    (initClf none none none).timestamps = none ∧
    fitStep (initClf none none none) 1 [0] = .ok cDefOut ∧
    (∃ nb : ℤ,
      ((initClf none none none).sampling_frac = none ∧ nb = 20 ∨
        ∃ r, (initClf none none none).sampling_frac = some r ∧
          nb = countFromFrac r 1 ((initClf none none none).min_length.getD 1)) ∧
      cDefOut.timestamps = some (npSortInt (npUniqueInt
        (derivedRaw nb 1 ((initClf none none none).min_length.getD 1)))) ∧
      (∀ x : ℤ, x ∈ npUniqueInt (derivedRaw nb 1 ((initClf none none none).min_length.getD 1)) ↔
        ∃ i : ℤ, 1 ≤ i ∧ i ≤ nb ∧
          x = intTrunc ((((1 : ℤ) - (initClf none none none).min_length.getD 1 : ℤ) : ℚ)
            * (i : ℚ) / ((nb : ℤ) : ℚ)) + (initClf none none none).min_length.getD 1) ∧
      (npUniqueInt (derivedRaw nb 1 ((initClf none none none).min_length.getD 1))).Nodup ∧
      cDefOut.nb_classifiers = some ((npUniqueInt
        (derivedRaw nb 1 ((initClf none none none).min_length.getD 1))).length : ℤ)) :=
  ⟨rfl, cDef_fit, base_C5_derived (initClf none none none) 1 [0] cDefOut rfl cDef_fit⟩
